import Mathlib

/-!
# Verification of utilmm's command-line / pkgconfig core

Shallow embedding of the `utilmm` repository's command-line option
machinery (`utilmm/configfile/commandline.hh`) and of the pkgconfig
wrapper (`src/configfile/pkgconfig.cc`), with theorems settling the
specification's claims.

Strings are embedded as `List Char` so that splitting and appending can
be reasoned about by structural induction.
-/

namespace Utilmm

/-- Strings of the C++ source, embedded as lists of characters. -/
abbrev Str := List Char

/-- Conversion from Lean string literals, used in concrete statements. -/
def str (s : String) : Str := s.data

/-! ## pkgconfig (`src/configfile/pkgconfig.cc`)

The process-invocation itself (fork/exec, pipes) is I/O; its *outcome* is
modelled as a value of `Except PkgError Str`: either the captured raw
output of the child process, or the exception `pkgconfig::run(process&)`
throws (`unix_error` on a failed read, `pkgconfig_error` when the child
did not exit normally, `not_found` on a non-zero exit status). The string
manipulation that `pkgconfig.cc` performs on that outcome is embedded
exactly. -/

/-- The exceptions thrown by `pkgconfig::run(process&)`. -/
inductive PkgError
  | unix_error
  | pkgconfig_error
  | not_found
deriving DecidableEq, Repr

/-- The character set `" \t\n"` used by `pkgconfig::run`'s stripping code. -/
def isStripWS (c : Char) : Bool := c = ' ' || c = '\t' || c = '\n'

/-- `std::string::find_first_not_of(" \t\n")`: index of the first character
outside the set, `none` when every character is in the set (`npos`). -/
def find_first_not_of : Str → Option Nat
  | [] => none
  | c :: rest =>
    if isStripWS c then (find_first_not_of rest).map (· + 1) else some 0

/-- `std::string::find_last_not_of(" \t\n")`: index of the last character
outside the set, `none` when every character is in the set (`npos`). -/
def find_last_not_of : Str → Option Nat
  | [] => none
  | c :: rest =>
    match find_last_not_of rest with
    | some k => some (k + 1)
    | none => if isStripWS c then none else some 0

/-- The stripping sequence of `pkgconfig::run(string const&)`
(pkgconfig.cc lines 80-84): `string(output, first, last - first + 1)` is
the substring starting at `first` of length `last - first + 1`. -/
def strip_output (output : Str) : Str :=
  match find_first_not_of output with
  | none => []
  | some first =>
    match find_last_not_of output with
    | none => output.drop first
    | some last => (output.drop first).take (last - first + 1)

/-- `pkgconfig::run(string const& argument)`: runs the process and strips
the captured output; the raw process outcome is the parameter. -/
def pkgconfig_run (raw : Except PkgError Str) : Except PkgError Str :=
  match raw with
  | .error e => .error e
  | .ok output => .ok (strip_output output)

/-- `pkgconfig::get(varname, defval)`: calls `run("--variable=" + varname)`,
returning `defval` on `pkgconfig_error` or `not_found`; any other exception
(`unix_error`) is not caught. The raw process outcome is the parameter. -/
def pkgconfig_get (raw : Except PkgError Str) (defval : Str) :
    Except PkgError Str :=
  match pkgconfig_run raw with
  | .ok s => .ok s
  | .error .pkgconfig_error => .ok defval
  | .error .not_found => .ok defval
  | .error .unix_error => .error .unix_error

/-! ## Command-line core (`utilmm/configfile/commandline.hh`)

Only the header of this component is present in the repository sources:
it declares `cmdline_option` (one compiled option description) and
`command_line` (description compiler + argument matcher) and documents
the description grammar, but the implementation file is absent. The
definitions below are therefore modelled from the specification
(spec.md sections 3, 4.1, 4.2 and 7), kept consistent with the header's
declarations and doc comments. -/

/-- Modelled from the spec: whether the option takes an argument and
whether it is mandatory (spec section 3, `argument_kind`); the
implementation of `cmdline_option` is missing from the sources. -/
inductive ArgumentKind
  | NoArgument
  | RequiredArgument
  | OptionalArgument
deriving DecidableEq, Repr

/-- Modelled from the spec: how an argument's text is validated (spec
section 3, `value_type`); the implementation of `cmdline_option` is
missing from the sources. -/
inductive ValueType
  | Untyped
  | Integer
  | Boolean
  | StringT
deriving DecidableEq, Repr

/-- Modelled from the spec: one compiled option description (spec
section 3, `OptionSpec`; header class `cmdline_option`); the
implementation of `cmdline_option` is missing from the sources. -/
structure OptionSpec where
  config_key : Str
  long_name : Str
  short_name : Option Char
  help_text : Str
  argument_kind : ArgumentKind
  value_type : ValueType
  has_default : Bool
  default_value : Str
  is_multiple : Bool
  is_required : Bool
deriving DecidableEq, Repr

/-- A stored entry of the external key/value store: a scalar, or the
list built by an accumulating (`is_multiple`) option. -/
inductive StoredValue
  | scalar (v : Str)
  | vlist (vs : List Str)
deriving DecidableEq, Repr

/-- The external key/value store, as an association list. -/
abbrev Store := List (Str × StoredValue)

/-- Lookup in the store (`has`/`get` of the external store contract). -/
def store_get : Store → Str → Option StoredValue
  | [], _ => none
  | (k', v) :: rest, k => if k' = k then some v else store_get rest k

/-- `set_scalar`-style update: replaces the binding of `k`, or appends a
new binding. -/
def store_set : Store → Str → StoredValue → Store
  | [], k, sv => [(k, sv)]
  | (k', v) :: rest, k, sv =>
    if k' = k then (k, sv) :: rest else (k', v) :: store_set rest k sv

/-- `append_to_list(key, value)`: the first occurrence creates the list
(spec section 4.2 step 6). -/
def append_to_list (st : Store) (k : Str) (v : Str) : Store :=
  match store_get st k with
  | some (.vlist vs) => store_set st k (.vlist (vs ++ [v]))
  | _ => store_set st k (.vlist [v])

/-- The list of values stored under a key, reading a missing key as the
empty list and a scalar as a one-element list (the store contract's
list-of-string accessor). -/
def stored_values (st : Store) (k : Str) : List Str :=
  match store_get st k with
  | some (.vlist vs) => vs
  | some (.scalar v) => [v]
  | none => []

/-- Modelled from the spec: the errors of the matcher and of the
required-option check (spec section 7); `commandline.cc` is missing from
the sources. -/
inductive ParseError
  | UnknownOption (tok : Str)
  | MissingArgument (optName : Str)
  | TypeMismatch (optName : Str) (text : Str)
  | MissingRequiredOption (optName : Str)
deriving DecidableEq, Repr

/-- Recognition of a base-10 signed integer text: an optional sign
followed by at least one digit (spec section 4.2 step 5). -/
def intTextOk (s : Str) : Bool :=
  match s with
  | [] => false
  | c :: rest =>
    if c = '-' ∨ c = '+' then !rest.isEmpty && rest.all Char.isDigit
    else c.isDigit && rest.all Char.isDigit

/-- Modelled from the spec: `cmdline_option::checkArgument` — type
validation of a consumed argument text (spec section 4.2 step 5; header
lines 82-85); the implementation is missing from the sources. -/
def checkArgument (opt : OptionSpec) (v : Str) : Bool :=
  match opt.value_type with
  | .Integer => intTextOk v
  | .Boolean =>
    v = str "true" || v = str "false" || v = str "1" || v = str "0"
  | .StringT => true
  | .Untyped => true

/-- Storage of a validated value (spec section 4.2 step 6): append for
accumulating options, overwrite otherwise. -/
def storeOption (st : Store) (opt : OptionSpec) (v : Str) : Store :=
  if opt.is_multiple then append_to_list st opt.config_key v
  else store_set st opt.config_key (.scalar v)

/-- The value stored for an option matched without an argument: the
boolean `true` (spec section 4.2 step 4). -/
def trueText : Str := ['t', 'r', 'u', 'e']

/-- Long-name lookup in the option table. -/
def lookupLong (table : List OptionSpec) (name : Str) : Option OptionSpec :=
  table.find? (fun o => o.long_name = name)

/-- Short-name lookup in the option table. -/
def lookupShort (table : List OptionSpec) (c : Char) : Option OptionSpec :=
  table.find? (fun o => o.short_name = some c)

/-- Splits a list at the first occurrence of `sep`, returning the parts
before and after it, or `none` when `sep` does not occur. -/
def splitFirst (sep : Char) : Str → Option (Str × Str)
  | [] => none
  | c :: rest =>
    if c = sep then some ([], rest)
    else (splitFirst sep rest).map (fun p => (c :: p.1, p.2))

/-- Modelled from the spec: long-option handling (spec section 4.2 steps
1 and 4). The token body (after `--`) is split at the first `=`; the
result is the updated store, a pending option whose mandatory argument
must come from the next token, and a possible error; `commandline.cc` is
missing from the sources. -/
def handleLong (table : List OptionSpec) (st : Store) (body : Str) :
    Store × Option OptionSpec × Option ParseError :=
  let p := match splitFirst '=' body with
    | some q => (q.1, some q.2)
    | none => (body, (none : Option Str))
  match lookupLong table p.1 with
  | none => (st, none, some (.UnknownOption ('-' :: '-' :: body)))
  | some opt =>
    match opt.argument_kind, p.2 with
    | .NoArgument, _ => (storeOption st opt trueText, none, none)
    | .RequiredArgument, some v =>
      if checkArgument opt v then (storeOption st opt v, none, none)
      else (st, none, some (.TypeMismatch opt.long_name v))
    | .RequiredArgument, none => (st, some opt, none)
    | .OptionalArgument, some v =>
      if checkArgument opt v then (storeOption st opt v, none, none)
      else (st, none, some (.TypeMismatch opt.long_name v))
    | .OptionalArgument, none =>
      (storeOption st opt opt.default_value, none, none)

/-- Modelled from the spec: short-option cluster handling (spec section
4.2 steps 2 and 4). Each character is resolved independently against
short names; the first character whose option takes an argument consumes
the remainder of the token as the inline value and clustering stops; a
mandatory argument with no remainder becomes a pending option;
`commandline.cc` is missing from the sources. -/
def matchShortCluster (table : List OptionSpec) :
    Str → Store → Store × Option OptionSpec × Option ParseError
  | [], st => (st, none, none)
  | c :: more, st =>
    match lookupShort table c with
    | none => (st, none, some (.UnknownOption ['-', c]))
    | some opt =>
      match opt.argument_kind with
      | .NoArgument => matchShortCluster table more (storeOption st opt trueText)
      | .RequiredArgument =>
        match more with
        | [] => (st, some opt, none)
        | _ :: _ =>
          if checkArgument opt more then (storeOption st opt more, none, none)
          else (st, none, some (.TypeMismatch opt.long_name more))
      | .OptionalArgument =>
        match more with
        | [] => (storeOption st opt opt.default_value, none, none)
        | _ :: _ =>
          if checkArgument opt more then (storeOption st opt more, none, none)
          else (st, none, some (.TypeMismatch opt.long_name more))

/-- Modelled from the spec: the left-to-right matching loop over the
argument vector (spec section 4.2 steps 1-6 and the `ParseSession` state
machine of section 4.2; `commandline.cc` is missing from the sources).
The `pending` parameter is the `ExpectingArgument` state: the option
whose mandatory argument must be the next token. The result is the
store after all writes performed so far (writes persist even when an
error aborts the loop, as the C++ `config_set&` out-parameter does), the
leftover positional tokens, and the first error if any. -/
def parseLoop (table : List OptionSpec) :
    List Str → Option OptionSpec → Store → List Str →
    Store × List Str × Option ParseError
  | [], some opt, st, lo => (st, lo, some (.MissingArgument opt.long_name))
  | [], none, st, lo => (st, lo, none)
  | tok :: rest, some opt, st, lo =>
    if checkArgument opt tok then
      parseLoop table rest none (storeOption st opt tok) lo
    else (st, lo, some (.TypeMismatch opt.long_name tok))
  | tok :: rest, none, st, lo =>
    match tok with
    | '-' :: '-' :: body =>
      match body with
      | [] => (st, lo ++ rest, none)
      | _ :: _ =>
        match handleLong table st body with
        | (st', pend, none) => parseLoop table rest pend st' lo
        | (st', _, some e) => (st', lo, some e)
    | '-' :: c :: cluster =>
      match matchShortCluster table (c :: cluster) st with
      | (st', pend, none) => parseLoop table rest pend st' lo
      | (st', _, some e) => (st', lo, some e)
    | _ => parseLoop table rest none st (lo ++ [tok])

/-- Modelled from the spec: end-of-parse defaults (spec section 4.2 step
7) — every option of the `=value_type,default` form whose key was never
written receives its default as if matched once; `commandline.cc` is
missing from the sources. -/
def applyDefaults : List OptionSpec → Store → Store
  | [], st => st
  | opt :: rest, st =>
    applyDefaults rest
      (if opt.has_default = true ∧ opt.argument_kind = .RequiredArgument ∧
          store_get st opt.config_key = none
       then storeOption st opt opt.default_value else st)

/-- Modelled from the spec: the required-option check, deferred to
end-of-vector (spec section 4.2 step 8); `commandline.cc` is missing
from the sources. -/
def checkRequired : List OptionSpec → Store → Option ParseError
  | [], _ => none
  | opt :: rest, st =>
    if opt.is_required = true ∧ store_get st opt.config_key = none
    then some (.MissingRequiredOption opt.long_name)
    else checkRequired rest st

/-- Modelled from the spec: `command_line::parse` (spec section 4.2;
header lines 181-188; `commandline.cc` is missing from the sources).
Runs the matching loop from an empty store, then — only when the loop
finished without error — applies end-of-parse defaults and the
required-option check. -/
def parse (table : List OptionSpec) (tokens : List Str) :
    Store × List Str × Option ParseError :=
  match parseLoop table tokens none [] [] with
  | (st, lo, some e) => (st, lo, some e)
  | (st, lo, none) =>
    let st' := applyDefaults table st
    (st', lo, checkRequired table st')

/-! ### Description compiler (spec section 4.1) -/

/-- The compiler's failure value: a copy of the offending string and a
reason (spec sections 4.1 and 7, `MalformedDescription`). -/
structure MalformedDescription where
  source : Str
  reason : Str
deriving DecidableEq, Repr

/-- Modelled from the spec: the leading `!` / `*` flags of a description
— each at most once, in either relative position (spec section 4.1);
`commandline.cc` is missing from the sources. Returns
(is_required, is_multiple, remainder). -/
def parseFlags (s : Str) : Bool × Bool × Str :=
  match s with
  | [] => (false, false, [])
  | c1 :: r1 =>
    if c1 = '!' then
      match r1 with
      | [] => (true, false, [])
      | c2 :: r2 =>
        if c2 = '*' then (true, true, r2) else (true, false, c2 :: r2)
    else if c1 = '*' then
      match r1 with
      | [] => (false, true, [])
      | c2 :: r2 =>
        if c2 = '!' then (true, true, r2) else (false, true, c2 :: r2)
    else (false, false, c1 :: r1)

/-- Recognition of the three value-type names (spec section 4.1). -/
def recognizeType (s : Str) : Option ValueType :=
  if s = str "int" then some .Integer
  else if s = str "bool" then some .Boolean
  else if s = str "string" then some .StringT
  else none

/-- Modelled from the spec: the `ARGSPEC` production `'=' value_type
[',' default] | '?' value_type ',' default` (spec section 4.1); the `?`
form without a default is rejected; `commandline.cc` is missing from the
sources. Returns (argument_kind, value_type, has_default, default). -/
def parseArgspec (sep : Char) (r : Str) :
    Except Str (ArgumentKind × ValueType × Bool × Str) :=
  let vtText := r.takeWhile (· ≠ ',')
  let rest := r.dropWhile (· ≠ ',')
  match recognizeType vtText with
  | none => .error (str "unrecognized value type")
  | some vt =>
    let kind : ArgumentKind :=
      if sep = '?' then .OptionalArgument else .RequiredArgument
    match rest with
    | ',' :: d => .ok (kind, vt, true, d)
    | _ =>
      if sep = '?' then .error (str "optional argument requires a default")
      else .ok (kind, vt, false, [])

/-- Modelled from the spec: the part of a description between the two
structural colons — `long_name[,short_name][ARGSPEC]` (spec section
4.1); `commandline.cc` is missing from the sources. Returns
(long_name, short_name, argument_kind, value_type, has_default, default). -/
def parseCore (core : Str) :
    Except Str (Str × Option Char × ArgumentKind × ValueType × Bool × Str) :=
  let ln := core.takeWhile (fun c => c ≠ ',' ∧ c ≠ '=' ∧ c ≠ '?')
  let rest := core.dropWhile (fun c => c ≠ ',' ∧ c ≠ '=' ∧ c ≠ '?')
  if ln.isEmpty then .error (str "empty long name")
  else
    match rest with
    | [] => .ok (ln, none, .NoArgument, .Untyped, false, [])
    | ',' :: r =>
      let sn := r.takeWhile (fun c => c ≠ '=' ∧ c ≠ '?')
      let rest2 := r.dropWhile (fun c => c ≠ '=' ∧ c ≠ '?')
      match sn with
      | [c] =>
        match rest2 with
        | [] => .ok (ln, some c, .NoArgument, .Untyped, false, [])
        | sep :: r2 =>
          match parseArgspec sep r2 with
          | .error e => .error e
          | .ok (ak, vt, hd, dv) => .ok (ln, some c, ak, vt, hd, dv)
      | _ => .error (str "short name must be exactly one character")
    | sep :: r =>
      match parseArgspec sep r with
      | .error e => .error e
      | .ok (ak, vt, hd, dv) => .ok (ln, none, ak, vt, hd, dv)

/-- Modelled from the spec: the description compiler — one description
string to one `OptionSpec` or a `MalformedDescription` (spec section
4.1; header lines 113-119 give the same grammar); `commandline.cc` is
missing from the sources. The first `:` ends the (possibly empty)
config key; the next `:` starts the help text, which runs to the end of
the string; an omitted config key defaults to the long name. -/
def compile (s : Str) : Except MalformedDescription OptionSpec :=
  let f := parseFlags s
  match splitFirst ':' f.2.2 with
  | none => .error ⟨s, str "missing ':' before the long name"⟩
  | some (key, rest1) =>
    let ch := match splitFirst ':' rest1 with
      | none => (rest1, ([] : Str))
      | some q => q
    match parseCore ch.1 with
    | .error reason => .error ⟨s, reason⟩
    | .ok (ln, sn, ak, vt, hd, dv) =>
      .ok { config_key := if key.isEmpty then ln else key
            long_name := ln
            short_name := sn
            help_text := ch.2
            argument_kind := ak
            value_type := vt
            has_default := hd
            default_value := dv
            is_multiple := f.2.1
            is_required := f.1 }

/-! ## Theorems

### Stripping lemmas for `pkgconfig::run` -/

lemma ffno_eq_none_iff (s : Str) :
    find_first_not_of s = none ↔ ∀ c ∈ s, isStripWS c = true := by
  induction s with
  | nil => simp [find_first_not_of]
  | cons a rest ih =>
    by_cases hw : isStripWS a
    · simp [find_first_not_of, hw, Option.map_eq_none', ih]
    · simp [find_first_not_of, hw]

lemma flno_eq_none_iff (s : Str) :
    find_last_not_of s = none ↔ ∀ c ∈ s, isStripWS c = true := by
  induction s with
  | nil => simp [find_last_not_of]
  | cons a rest ih =>
    simp only [find_last_not_of]
    cases hf : find_last_not_of rest with
    | some k =>
      simp only [List.mem_cons]
      constructor
      · intro h; cases h
      · intro h
        have : ∀ c ∈ rest, isStripWS c = true := fun c hc => h c (Or.inr hc)
        rw [← ih] at this
        rw [this] at hf
        cases hf
    | none =>
      by_cases hw : isStripWS a
      · rw [if_pos hw]
        constructor
        · intro _ c hc
          rcases List.mem_cons.mp hc with rfl | hc'
          · exact hw
          · exact ih.mp hf c hc'
        · intro _; rfl
      · simp [hw]

lemma ffno_some_spec (s : Str) (i : Nat) (h : find_first_not_of s = some i) :
    (∀ c ∈ s.take i, isStripWS c = true) ∧
    ∃ c rest, s.drop i = c :: rest ∧ isStripWS c = false := by
  induction s generalizing i with
  | nil => simp [find_first_not_of] at h
  | cons a rest ih =>
    simp only [find_first_not_of] at h
    by_cases hw : isStripWS a
    · rw [if_pos hw] at h
      cases hf : find_first_not_of rest with
      | none => rw [hf] at h; simp at h
      | some j =>
        rw [hf] at h
        simp only [Option.map_some', Option.some.injEq] at h
        subst h
        obtain ⟨h1, c, r, h2, h3⟩ := ih j hf
        refine ⟨?_, c, r, by simpa using h2, h3⟩
        intro c' hc'
        simp only [List.take_succ_cons, List.mem_cons] at hc'
        rcases hc' with rfl | hc'
        · exact hw
        · exact h1 c' hc'
    · rw [if_neg hw] at h
      simp only [Option.some.injEq] at h
      subst h
      exact ⟨by simp, a, rest, rfl, by simpa using hw⟩

lemma flno_some_spec (s : Str) (j : Nat) (h : find_last_not_of s = some j) :
    j < s.length ∧ (∀ c ∈ s.drop (j + 1), isStripWS c = true) ∧
    ∃ c, (s.take (j + 1)).getLast? = some c ∧ isStripWS c = false := by
  induction s generalizing j with
  | nil => simp [find_last_not_of] at h
  | cons a rest ih =>
    simp only [find_last_not_of] at h
    cases hf : find_last_not_of rest with
    | some k =>
      rw [hf] at h
      simp only [Option.some.injEq] at h
      subst h
      obtain ⟨hl, h2, c, h3, h4⟩ := ih k hf
      refine ⟨by simpa using hl, by simpa using h2, c, ?_, h4⟩
      have hne : rest.take (k + 1) ≠ [] := by
        intro hnil
        rw [List.take_eq_nil_iff] at hnil
        rcases hnil with h' | h'
        · cases h'
        · rw [h'] at hl; simp at hl
      rw [List.take_succ_cons]
      cases htk : rest.take (k + 1) with
      | nil => exact absurd htk hne
      | cons b t => rw [htk] at h3; rw [List.getLast?_cons_cons]; exact h3
    | none =>
      rw [hf] at h
      by_cases hw : isStripWS a
      · rw [if_pos hw] at h; cases h
      · rw [if_neg hw] at h
        simp only [Option.some.injEq] at h
        subst h
        refine ⟨by simp, by simpa using (flno_eq_none_iff rest).mp hf,
          a, by simp, by simpa using hw⟩

lemma getLast?_drop_of_lt (l : Str) (i : Nat) (h : i < l.length) :
    (l.drop i).getLast? = l.getLast? := by
  induction l generalizing i with
  | nil => simp at h
  | cons a rest ih =>
    cases i with
    | zero => rfl
    | succ i' =>
      have h' : i' < rest.length := by simpa using h
      rw [List.drop_succ_cons, ih i' h']
      cases rest with
      | nil => simp at h'
      | cons b t => rw [List.getLast?_cons_cons]

/-- C10: `pkgconfig::run(argument)` returns the captured output stripped
of leading and trailing space/tab/newline characters: the result neither
begins nor ends with such a character, is empty when the output is all
whitespace, and otherwise is the substring of the output from its first
to its last non-whitespace character inclusive (equivalently: the output
is a whitespace prefix, then the result with non-whitespace endpoints,
then a whitespace suffix). -/
theorem c10_run_strips_whitespace (output : Str) :
    pkgconfig_run (.ok output) = .ok (strip_output output) ∧
    (∀ c, (strip_output output).head? = some c → isStripWS c = false) ∧
    (∀ c, (strip_output output).getLast? = some c → isStripWS c = false) ∧
    ((∀ c ∈ output, isStripWS c = true) → strip_output output = []) ∧
    ((∃ c ∈ output, isStripWS c = false) →
      strip_output output ≠ [] ∧
      ∃ pre post, output = pre ++ strip_output output ++ post ∧
        (∀ c ∈ pre, isStripWS c = true) ∧
        (∀ c ∈ post, isStripWS c = true)) := by
  refine ⟨rfl, ?_⟩
  by_cases hall : ∀ c ∈ output, isStripWS c = true
  · have h0 : find_first_not_of output = none := (ffno_eq_none_iff output).mpr hall
    have hs : strip_output output = [] := by simp [strip_output, h0]
    refine ⟨by simp [hs], by simp [hs], fun _ => hs, ?_⟩
    rintro ⟨c, hc, hcw⟩
    rw [hall c hc] at hcw
    cases hcw
  · cases hf : find_first_not_of output with
    | none => exact absurd ((ffno_eq_none_iff output).mp hf) hall
    | some i =>
      cases hg : find_last_not_of output with
      | none => exact absurd ((flno_eq_none_iff output).mp hg) hall
      | some j =>
        obtain ⟨hpre, c, r, hdrop, hcw⟩ := ffno_some_spec output i hf
        obtain ⟨hjlen, hpost, d, hdlast, hdw⟩ := flno_some_spec output j hg
        have hij : i ≤ j := by
          by_contra hlt
          push_neg at hlt
          have hcmem : c ∈ output.drop (j + 1) := by
            have h1 : c ∈ output.drop i := by
              rw [hdrop]; exact List.mem_cons_self c r
            have heq : output.drop i = (output.drop (j + 1)).drop (i - (j + 1)) := by
              rw [List.drop_drop]; congr 1; omega
            rw [heq] at h1
            exact List.mem_of_mem_drop h1
          rw [hpost c hcmem] at hcw
          cases hcw
        have hstrip : strip_output output = (output.drop i).take (j - i + 1) := by
          simp [strip_output, hf, hg]
        have hmid : strip_output output = (output.take (j + 1)).drop i := by
          rw [hstrip, List.take_drop]
          have harith : i + (j - i + 1) = j + 1 := by omega
          rw [harith]
        have hhead : (strip_output output).head? = some c := by
          rw [hstrip, hdrop, List.take_succ_cons]
          rfl
        have hlast : (strip_output output).getLast? = some d := by
          rw [hmid, getLast?_drop_of_lt]
          · exact hdlast
          · rw [List.length_take]
            have h1 : j + 1 ≤ output.length := by omega
            calc i < j + 1 := by omega
              _ = (j + 1) ⊓ output.length := (inf_eq_left.mpr h1).symm
        refine ⟨?_, ?_, fun h => absurd h hall, fun _ => ⟨?_, ?_⟩⟩
        · intro c' hc'
          rw [hhead] at hc'
          cases hc'
          exact hcw
        · intro c' hc'
          rw [hlast] at hc'
          cases hc'
          exact hdw
        · intro hnil
          rw [hnil] at hhead
          cases hhead
        · refine ⟨output.take i, output.drop (j + 1), ?_, hpre, hpost⟩
          have hjoin : strip_output output ++ output.drop (j + 1) = output.drop i := by
            rw [hstrip]
            have h2 : output.drop (j + 1) = (output.drop i).drop (j - i + 1) := by
              rw [List.drop_drop]; congr 1; omega
            rw [h2, List.take_append_drop]
          calc output = output.take i ++ output.drop i :=
                (List.take_append_drop i output).symm
            _ = output.take i ++ (strip_output output ++ output.drop (j + 1)) := by
                rw [hjoin]
            _ = output.take i ++ strip_output output ++ output.drop (j + 1) := by
                rw [List.append_assoc]

/-- Witness for C10 at the concrete output `" x "`. -/
theorem c10_witness :
    strip_output (str " x ") ≠ [] ∧
    ∃ pre post, str " x " = pre ++ strip_output (str " x ") ++ post ∧
      (∀ c ∈ pre, isStripWS c = true) ∧
      (∀ c ∈ post, isStripWS c = true) :=
  (c10_run_strips_whitespace (str " x ")).2.2.2.2 ⟨'x', by decide, by decide⟩

/-- C9: `pkgconfig::get(varname, defval)` returns the stripped output of
`pkg-config --variable=<varname>` when the invocation succeeds, and
returns the supplied default — not the exception — when the invocation
fails with `pkgconfig_error` or `not_found`. -/
theorem c9_get_returns_default_on_failure (o defval : Str) :
    pkgconfig_get (.ok o) defval = .ok (strip_output o) ∧
    pkgconfig_get (.error .pkgconfig_error) defval = .ok defval ∧
    pkgconfig_get (.error .not_found) defval = .ok defval :=
  ⟨rfl, rfl, rfl⟩

/-! ### Concrete option tables used by the matcher claims -/

/-- A no-argument option with short name `a`. -/
def optA : OptionSpec :=
  { config_key := str "a", long_name := str "aopt", short_name := some 'a'
    help_text := [], argument_kind := .NoArgument, value_type := .Untyped
    has_default := false, default_value := [], is_multiple := false
    is_required := false }

/-- A no-argument option with short name `b`. -/
def optB : OptionSpec :=
  { config_key := str "b", long_name := str "bopt", short_name := some 'b'
    help_text := [], argument_kind := .NoArgument, value_type := .Untyped
    has_default := false, default_value := [], is_multiple := false
    is_required := false }

/-- An option with short name `c` taking a mandatory string argument. -/
def optC : OptionSpec :=
  { config_key := str "c", long_name := str "copt", short_name := some 'c'
    help_text := [], argument_kind := .RequiredArgument, value_type := .StringT
    has_default := false, default_value := [], is_multiple := false
    is_required := false }

/-- C2: for a table declaring short options `a` (no argument), `b` (no
argument) and `c` (string argument), parsing the single token
`-abcHELLO` stores `a = true`, `b = true` and `c = "HELLO"`: cluster
characters are resolved independently against short names until the
first one whose option takes an argument, which consumes the rest of
the token as its inline value. -/
theorem c2_short_cluster_inline_argument :
    parse [optA, optB, optC] [str "-abcHELLO"] =
      ([(str "a", .scalar trueText), (str "b", .scalar trueText),
        (str "c", .scalar (str "HELLO"))], [], none) := by
  decide

/-- C7: once the exact token `--` is consumed, the matching loop stops:
every remaining token, whatever its leading dashes, is appended in order
to the leftover positional list, and the store is not touched again. -/
theorem c7_end_marker_stops_matching (table : List OptionSpec)
    (rest : List Str) (st : Store) (lo : List Str) :
    parseLoop table (str "--" :: rest) none st lo = (st, lo ++ rest, none) :=
  rfl

/-! ### Splitting and long-option step lemmas -/

lemma splitFirst_eq_none (sep : Char) (s : Str) (h : sep ∉ s) :
    splitFirst sep s = none := by
  induction s with
  | nil => rfl
  | cons c rest ih =>
    have hc : c ≠ sep := fun hcs => h (hcs ▸ List.mem_cons_self c rest)
    have hr : sep ∉ rest := fun hm => h (List.mem_cons_of_mem c hm)
    simp [splitFirst, hc, ih hr]

lemma splitFirst_append (sep : Char) (p q : Str) (h : sep ∉ p) :
    splitFirst sep (p ++ sep :: q) = some (p, q) := by
  induction p with
  | nil => simp [splitFirst]
  | cons c rest ih =>
    have hc : c ≠ sep := fun hcs => h (hcs ▸ List.mem_cons_self c rest)
    have hr : sep ∉ rest := fun hm => h (List.mem_cons_of_mem c hm)
    simp [splitFirst, hc, ih hr]

/-- A long-option token with an inline `=value`. -/
def longTok (name v : Str) : Str := '-' :: '-' :: (name ++ '=' :: v)

/-- A long-option token without an inline value. -/
def longTokPlain (name : Str) : Str := '-' :: '-' :: name

lemma handleLong_inline_arg (table : List OptionSpec) (st : Store)
    (ln v : Str) (opt : OptionSpec) (h2 : '=' ∉ ln)
    (h3 : lookupLong table ln = some opt)
    (hk : opt.argument_kind = .RequiredArgument ∨
          opt.argument_kind = .OptionalArgument)
    (hc : checkArgument opt v = true) :
    handleLong table st (ln ++ '=' :: v) = (storeOption st opt v, none, none) := by
  rcases hk with hk | hk <;>
    simp [handleLong, splitFirst_append '=' ln v h2, h3, hk, hc]

lemma handleLong_inline_bad (table : List OptionSpec) (st : Store)
    (ln v : Str) (opt : OptionSpec) (h2 : '=' ∉ ln)
    (h3 : lookupLong table ln = some opt)
    (hk : opt.argument_kind = .RequiredArgument ∨
          opt.argument_kind = .OptionalArgument)
    (hc : checkArgument opt v = false) :
    handleLong table st (ln ++ '=' :: v) =
      (st, none, some (.TypeMismatch opt.long_name v)) := by
  rcases hk with hk | hk <;>
    simp [handleLong, splitFirst_append '=' ln v h2, h3, hk, hc]

lemma handleLong_plain_optional (table : List OptionSpec) (st : Store)
    (ln : Str) (opt : OptionSpec) (h2 : '=' ∉ ln)
    (h3 : lookupLong table ln = some opt)
    (hk : opt.argument_kind = .OptionalArgument) :
    handleLong table st ln = (storeOption st opt opt.default_value, none, none) := by
  simp [handleLong, splitFirst_eq_none '=' ln h2, h3, hk]

lemma parseLoop_long_step (table : List OptionSpec) (body : Str)
    (hb : body ≠ []) (rest : List Str) (st : Store) (lo : List Str) :
    parseLoop table (('-' :: '-' :: body) :: rest) none st lo =
      match handleLong table st body with
      | (st', pend, none) => parseLoop table rest pend st' lo
      | (st', _, some e) => (st', lo, some e) := by
  obtain ⟨c0, b', rfl⟩ := List.exists_cons_of_ne_nil hb
  rfl

/-! ### Store lemmas -/

lemma store_get_set (st : Store) (k : Str) (sv : StoredValue) :
    store_get (store_set st k sv) k = some sv := by
  induction st with
  | nil => simp [store_set, store_get]
  | cons e rest ih =>
    by_cases h : e.1 = k
    · simp [store_set, h, store_get]
    · simp [store_set, store_get, h, ih]

lemma store_get_set_ne (st : Store) (k k' : Str) (sv : StoredValue)
    (h : k ≠ k') : store_get (store_set st k sv) k' = store_get st k' := by
  induction st with
  | nil => simp [store_set, store_get, h]
  | cons e rest ih =>
    by_cases he : e.1 = k
    · simp [store_set, he, store_get, h]
    · simp [store_set, store_get, he, ih]

lemma append_to_list_get_none (st : Store) (k v : Str)
    (h : store_get st k = none) :
    store_get (append_to_list st k v) k = some (.vlist [v]) := by
  simp [append_to_list, h, store_get_set]

lemma append_to_list_get_list (st : Store) (k v : Str) (acc : List Str)
    (h : store_get st k = some (.vlist acc)) :
    store_get (append_to_list st k v) k = some (.vlist (acc ++ [v])) := by
  simp [append_to_list, h, store_get_set]

lemma fold_append_to_list (k : Str) (vs : List Str) :
    ∀ (st : Store) (acc : List Str), store_get st k = some (.vlist acc) →
      store_get (vs.foldl (fun s v => append_to_list s k v) st) k =
        some (.vlist (acc ++ vs)) := by
  induction vs with
  | nil => intro st acc h; simpa using h
  | cons v vs' ih =>
    intro st acc h
    have h1 := append_to_list_get_list st k v acc h
    have h2 := ih (append_to_list st k v) (acc ++ [v]) h1
    simpa using h2

lemma fold_set_scalar (k : Str) (vs : List Str) :
    ∀ (st : Store) (w : Str), vs.getLast? = some w →
      store_get (vs.foldl (fun s v => store_set s k (.scalar v)) st) k =
        some (.scalar w) := by
  induction vs with
  | nil => intro st w h; cases h
  | cons v vs' ih =>
    intro st w h
    rw [List.foldl_cons]
    cases vs' with
    | nil =>
      have hw : v = w := by simpa using h
      subst hw
      simp [store_get_set]
    | cons v2 t =>
      rw [List.getLast?_cons_cons] at h
      exact ih (store_set st k (.scalar v)) w h

/-! ### C1: multiplicity -/

lemma lookupLong_single (opt : OptionSpec) :
    lookupLong [opt] opt.long_name = some opt := by
  simp [lookupLong, List.find?]

lemma checkArgument_string (opt : OptionSpec) (v : Str)
    (h : opt.value_type = .StringT) : checkArgument opt v = true := by
  simp [checkArgument, h]

lemma c1_loop (table : List OptionSpec) (opt : OptionSpec)
    (h1 : lookupLong table opt.long_name = some opt)
    (h2 : '=' ∉ opt.long_name)
    (h3 : opt.argument_kind = .RequiredArgument)
    (h4 : opt.value_type = .StringT) :
    ∀ (vs : List Str) (st : Store) (lo : List Str),
      parseLoop table (vs.map (longTok opt.long_name)) none st lo =
        (vs.foldl (fun s v => storeOption s opt v) st, lo, none) := by
  intro vs
  induction vs with
  | nil => intro st lo; rfl
  | cons v vs' ih =>
    intro st lo
    rw [List.map_cons, longTok,
      parseLoop_long_step table (opt.long_name ++ '=' :: v) (by simp) _ st lo,
      handleLong_inline_arg table st opt.long_name v opt h2
        h1 (Or.inl h3) (checkArgument_string opt v h4)]
    rw [List.foldl_cons]
    exact ih (storeOption st opt v) lo

/-- An accumulating option declared with an `=string,5`-style default:
the shape on which the unamended C1 fails at N = 0. -/
def optDefault : OptionSpec :=
  { config_key := str "d", long_name := str "dopt", short_name := none
    help_text := [], argument_kind := .RequiredArgument
    value_type := .StringT, has_default := true, default_value := str "5"
    is_multiple := true, is_required := false }

/-- Counterexample to C1 as stated: an `is_multiple` option declared
with an `=type,default` default and matched N = 0 times does not end
with a stored list of 0 values — the end-of-parse defaults step (spec
section 4.2 step 7) writes the one-element list `[default]`, and the
parse succeeds. -/
theorem c1_counterexample :
    optDefault.is_multiple = true ∧
    stored_values (parse [optDefault] ([] : List Str)).1
        optDefault.config_key = [str "5"] ∧
    stored_values (parse [optDefault] ([] : List Str)).1
        optDefault.config_key ≠ [] ∧
    (parse [optDefault] ([] : List Str)).2.2 = none := by
  decide

/-- C1 (amended): for any table resolving the option by its long name
and any point of the parse, matching the option N times appends — when
`is_multiple` — exactly the N values in vector order to the list under
`config_key` (creating it at the first occurrence), and stores — when
not `is_multiple` — the scalar of the last occurrence; end-to-end on the
option's table, zero occurrences leave the key empty unless the option
declares an `=type,default` default, in which case the parse ends with
the one-element list `[default]` (the scalar `default` when not
`is_multiple`). -/
theorem c1_multiplicity_amended (table : List OptionSpec)
    (opt : OptionSpec) (vs : List Str)
    (h1 : lookupLong table opt.long_name = some opt)
    (h2 : '=' ∉ opt.long_name)
    (h3 : opt.argument_kind = .RequiredArgument)
    (h4 : opt.value_type = .StringT) :
    (∀ (st : Store) (lo : List Str),
      parseLoop table (vs.map (longTok opt.long_name)) none st lo =
        (vs.foldl (fun s v => storeOption s opt v) st, lo, none)) ∧
    (opt.is_multiple = true → ∀ st : Store,
      (store_get st opt.config_key = none →
        store_get (vs.foldl (fun s v => storeOption s opt v) st)
            opt.config_key = (if vs = [] then none else some (.vlist vs))) ∧
      (∀ acc, store_get st opt.config_key = some (.vlist acc) →
        store_get (vs.foldl (fun s v => storeOption s opt v) st)
            opt.config_key = some (.vlist (acc ++ vs)))) ∧
    (opt.is_multiple = false → ∀ (st : Store) (w : Str),
      vs.getLast? = some w →
      store_get (vs.foldl (fun s v => storeOption s opt v) st)
          opt.config_key = some (.scalar w)) ∧
    (opt.is_multiple = true →
      stored_values (parse [opt] (vs.map (longTok opt.long_name))).1
          opt.config_key =
        (if vs = [] ∧ opt.has_default = true then [opt.default_value]
         else vs)) ∧
    (opt.is_multiple = false →
      (∀ w, vs.getLast? = some w →
        store_get (parse [opt] (vs.map (longTok opt.long_name))).1
            opt.config_key = some (.scalar w)) ∧
      (vs = [] → opt.has_default = true →
        store_get (parse [opt] (vs.map (longTok opt.long_name))).1
            opt.config_key = some (.scalar opt.default_value))) := by
  have hparse : (parse [opt] (vs.map (longTok opt.long_name))).1 =
      applyDefaults [opt] (vs.foldl (fun s v => storeOption s opt v) []) := by
    simp [parse, c1_loop [opt] opt (lookupLong_single opt) h2 h3 h4 vs [] []]
  refine ⟨c1_loop table opt h1 h2 h3 h4 vs, ?_, ?_, ?_, ?_⟩
  · intro hm st
    have hfold : ∀ s : Store,
        vs.foldl (fun s v => storeOption s opt v) s =
          vs.foldl (fun s v => append_to_list s opt.config_key v) s := by
      intro s
      simp only [storeOption, hm, if_pos]
    constructor
    · intro hnone
      rw [hfold]
      cases vs with
      | nil => simpa using hnone
      | cons v vs' =>
        rw [List.foldl_cons]
        have h0 : store_get (append_to_list st opt.config_key v)
            opt.config_key = some (.vlist [v]) :=
          append_to_list_get_none st opt.config_key v hnone
        have := fold_append_to_list opt.config_key vs' _ [v] h0
        simpa using this
    · intro acc hacc
      rw [hfold]
      exact fold_append_to_list opt.config_key vs st acc hacc
  · intro hm st w hw
    have hfold : vs.foldl (fun s v => storeOption s opt v) st =
        vs.foldl (fun s v => store_set s opt.config_key (.scalar v)) st := by
      simp [storeOption, hm]
    rw [hfold]
    exact fold_set_scalar opt.config_key vs st w hw
  · intro hm
    cases vs with
    | nil =>
      rw [List.map_nil] at hparse
      by_cases hhd : opt.has_default = true
      · simp [hparse, applyDefaults, h3, hhd, storeOption, hm,
          append_to_list, store_get, store_set, stored_values]
      · simp [hparse, applyDefaults, hhd, stored_values, store_get]
    | cons v vs' =>
      have hfold : (v :: vs').foldl (fun s v => storeOption s opt v)
          ([] : Store) =
          (v :: vs').foldl (fun s v => append_to_list s opt.config_key v)
            [] := by
        simp only [storeOption, hm, if_pos]
      have hg : store_get
          ((v :: vs').foldl (fun s v => append_to_list s opt.config_key v)
            ([] : Store)) opt.config_key = some (.vlist (v :: vs')) := by
        rw [List.foldl_cons]
        have h0 : store_get (append_to_list ([] : Store) opt.config_key v)
            opt.config_key = some (.vlist [v]) :=
          append_to_list_get_none [] opt.config_key v rfl
        have := fold_append_to_list opt.config_key vs' _ [v] h0
        simpa using this
      have hcond : ¬(opt.has_default = true ∧
          opt.argument_kind = ArgumentKind.RequiredArgument ∧
          store_get ((v :: vs').foldl
            (fun s v => append_to_list s opt.config_key v) ([] : Store))
            opt.config_key = none) := by
        rintro ⟨-, -, hn⟩
        rw [hg] at hn
        cases hn
      have hunch : applyDefaults [opt]
          ((v :: vs').foldl (fun s v => append_to_list s opt.config_key v)
            []) =
          (v :: vs').foldl (fun s v => append_to_list s opt.config_key v)
            [] := by
        simp only [applyDefaults]
        rw [if_neg hcond]
      rw [hparse, hfold, hunch, stored_values, hg]
      simp
  · intro hm
    constructor
    · intro w hw
      have hfold : vs.foldl (fun s v => storeOption s opt v) ([] : Store) =
          vs.foldl (fun s v => store_set s opt.config_key (.scalar v)) [] := by
        simp [storeOption, hm]
      have hg := fold_set_scalar opt.config_key vs [] w hw
      have hcond : ¬(opt.has_default = true ∧
          opt.argument_kind = ArgumentKind.RequiredArgument ∧
          store_get (vs.foldl
            (fun s v => store_set s opt.config_key (.scalar v)) ([] : Store))
            opt.config_key = none) := by
        rintro ⟨-, -, hn⟩
        rw [hg] at hn
        cases hn
      have hunch : applyDefaults [opt]
          (vs.foldl (fun s v => store_set s opt.config_key (.scalar v)) []) =
          vs.foldl (fun s v => store_set s opt.config_key (.scalar v)) [] := by
        simp only [applyDefaults]
        rw [if_neg hcond]
      rw [hparse, hfold, hunch]
      exact hg
    · intro hnil hhd
      subst hnil
      rw [List.map_nil] at hparse
      simp [hparse, applyDefaults, h3, hhd, storeOption, hm, store_set,
        store_get]

/-- A gcc `-I`-style accumulating option, as in the header's example. -/
def optInclude : OptionSpec :=
  { config_key := str "include", long_name := str "include"
    short_name := some 'I', help_text := [],
    argument_kind := .RequiredArgument, value_type := .StringT
    has_default := false, default_value := [], is_multiple := true
    is_required := false }

/-- Witness for C1: two occurrences of `--include=` store the two values
in order. -/
theorem c1_witness :
    stored_values
      (parse [optInclude]
        ([str "/a", str "/b"].map (longTok optInclude.long_name))).1
      optInclude.config_key = [str "/a", str "/b"] :=
  (c1_multiplicity_amended [optInclude] optInclude [str "/a", str "/b"]
    (lookupLong_single optInclude) (by decide) rfl rfl).2.2.2.1 rfl

/-! ### C4: optional arguments -/

/-- C4: an `OptionalArgument` option matched without an inline value
stores exactly its declared default and the loop continues on the very
same remaining vector (no token is consumed); matched with an inline
value it stores that value after type validation, and fails with
`TypeMismatch` when validation rejects it. -/
theorem c4_optional_argument (table : List OptionSpec) (opt : OptionSpec)
    (rest : List Str) (st : Store) (lo : List Str) (v : Str)
    (h1 : opt.long_name ≠ []) (h2 : '=' ∉ opt.long_name)
    (h3 : lookupLong table opt.long_name = some opt)
    (h4 : opt.argument_kind = .OptionalArgument) :
    parseLoop table (longTokPlain opt.long_name :: rest) none st lo =
      parseLoop table rest none (storeOption st opt opt.default_value) lo ∧
    (checkArgument opt v = true →
      parseLoop table (longTok opt.long_name v :: rest) none st lo =
        parseLoop table rest none (storeOption st opt v) lo) ∧
    (checkArgument opt v = false →
      parseLoop table (longTok opt.long_name v :: rest) none st lo =
        (st, lo, some (.TypeMismatch opt.long_name v))) := by
  refine ⟨?_, ?_, ?_⟩
  · rw [longTokPlain, parseLoop_long_step table opt.long_name h1 rest st lo,
      handleLong_plain_optional table st opt.long_name opt h2 h3 h4]
  · intro hc
    rw [longTok, parseLoop_long_step table _ (by simp) rest st lo,
      handleLong_inline_arg table st opt.long_name v opt h2 h3 (Or.inr h4) hc]
  · intro hc
    rw [longTok, parseLoop_long_step table _ (by simp) rest st lo,
      handleLong_inline_bad table st opt.long_name v opt h2 h3 (Or.inr h4) hc]

/-- An option with an optional integer argument and default `5`. -/
def optLevel : OptionSpec :=
  { config_key := str "level", long_name := str "level", short_name := none
    help_text := [], argument_kind := .OptionalArgument
    value_type := .Integer, has_default := true, default_value := str "5"
    is_multiple := false, is_required := false }

/-- Witness for C4: `--level` with no inline value stores the default
`5` and consumes nothing further. -/
theorem c4_witness :
    parseLoop [optLevel] [longTokPlain optLevel.long_name] none [] [] =
      parseLoop [optLevel] [] none
        (storeOption [] optLevel optLevel.default_value) [] :=
  (c4_optional_argument [optLevel] optLevel [] [] [] (str "7")
    (by decide) (by decide) (by decide) rfl).1

/-! ### C5: the required-option check is deferred -/

lemma handleLong_no_mro (table : List OptionSpec) (st : Store) (body : Str)
    (n : Str) :
    (handleLong table st body).2.2 ≠ some (.MissingRequiredOption n) := by
  cases hsp : splitFirst '=' body with
  | none =>
    cases hlk : lookupLong table body with
    | none => simp [handleLong, hsp, hlk]
    | some opt =>
      cases hk : opt.argument_kind <;> simp [handleLong, hsp, hlk, hk]
  | some q =>
    cases hlk : lookupLong table q.1 with
    | none => simp [handleLong, hsp, hlk]
    | some opt =>
      cases hk : opt.argument_kind with
      | NoArgument => simp [handleLong, hsp, hlk, hk]
      | RequiredArgument =>
        by_cases hc : checkArgument opt q.2 = true <;>
          simp [handleLong, hsp, hlk, hk, hc]
      | OptionalArgument =>
        by_cases hc : checkArgument opt q.2 = true <;>
          simp [handleLong, hsp, hlk, hk, hc]

lemma cluster_no_mro (table : List OptionSpec) (n : Str) :
    ∀ (cl : Str) (st : Store),
      (matchShortCluster table cl st).2.2 ≠ some (.MissingRequiredOption n) := by
  intro cl
  induction cl with
  | nil => intro st; simp [matchShortCluster]
  | cons c more ih =>
    intro st
    cases hlk : lookupShort table c with
    | none => simp [matchShortCluster, hlk]
    | some opt =>
      cases hk : opt.argument_kind with
      | NoArgument =>
        simp only [matchShortCluster, hlk, hk]
        exact ih _
      | RequiredArgument =>
        cases more with
        | nil => simp [matchShortCluster, hlk, hk]
        | cons a b =>
          by_cases hc : checkArgument opt (a :: b) = true <;>
            simp [matchShortCluster, hlk, hk, hc]
      | OptionalArgument =>
        cases more with
        | nil => simp [matchShortCluster, hlk, hk]
        | cons a b =>
          by_cases hc : checkArgument opt (a :: b) = true <;>
            simp [matchShortCluster, hlk, hk, hc]

lemma loop_no_mro (table : List OptionSpec) (n : Str) :
    ∀ (toks : List Str) (pend : Option OptionSpec) (st : Store)
      (lo : List Str),
      (parseLoop table toks pend st lo).2.2 ≠
        some (.MissingRequiredOption n) := by
  intro toks
  induction toks with
  | nil =>
    intro pend st lo
    cases pend <;> simp [parseLoop]
  | cons tok rest ih =>
    intro pend st lo
    cases pend with
    | some opt =>
      simp only [parseLoop]
      by_cases hc : checkArgument opt tok = true
      · rw [if_pos hc]; exact ih none _ lo
      · rw [if_neg hc]; simp
    | none =>
      simp only [parseLoop]
      split
      · split
        · simp
        · split
          · exact ih _ _ lo
          · rename_i heq
            intro hcontra
            exact handleLong_no_mro table st _ n (by rw [heq, hcontra])
      · split
        · exact ih _ _ lo
        · rename_i heq
          intro hcontra
          exact cluster_no_mro table n _ st (by rw [heq, hcontra])
      · exact ih _ _ _

/-- A non-required option used alongside the required one in C5. -/
def optOther : OptionSpec :=
  { config_key := str "other", long_name := str "other", short_name := none
    help_text := [], argument_kind := .RequiredArgument
    value_type := .StringT, has_default := false, default_value := []
    is_multiple := false, is_required := false }

/-- A required (`!`) option that never appears on the vector in C5. -/
def optReq : OptionSpec :=
  { config_key := str "must", long_name := str "must", short_name := none
    help_text := [], argument_kind := .RequiredArgument
    value_type := .StringT, has_default := false, default_value := []
    is_multiple := false, is_required := true }

/-- C5: a `MissingRequiredOption` failure can only arise after the whole
vector has been processed — the matching loop itself never produces it,
and the store returned with the failure is the fully written
post-defaults store; concretely, parsing `--other=v` against a table
with the required option `must` stores `other = v` and then fails with
`MissingRequiredOption "must"`. -/
theorem c5_missing_required_deferred :
    (∀ (table : List OptionSpec) (tokens : List Str) (n : Str),
      (parse table tokens).2.2 = some (.MissingRequiredOption n) →
      (parseLoop table tokens none [] []).2.2 = none ∧
      (parse table tokens).1 =
        applyDefaults table (parseLoop table tokens none [] []).1) ∧
    (∀ v : Str,
      parse [optOther, optReq] [longTok (str "other") v] =
        ([(str "other", .scalar v)], [],
          some (.MissingRequiredOption (str "must")))) := by
  constructor
  · intro table tokens n h
    rcases hl : parseLoop table tokens none [] [] with ⟨st, lo, err⟩
    cases err with
    | some e =>
      exfalso
      have hp : (parse table tokens).2.2 = some e := by
        simp [parse, hl]
      rw [h] at hp
      apply loop_no_mro table n tokens none [] []
      rw [hl]
      simpa using hp.symm
    | none =>
      constructor
      · rfl
      · simp [parse, hl]
  · intro v
    rfl

/-- Witness for C5: against the two-option table, the loop over
`["--other=x"]` finishes cleanly and the store returned with the
`MissingRequiredOption` failure is the fully processed one. -/
theorem c5_witness :
    (parseLoop [optOther, optReq] [longTok (str "other") (str "x")] none []
        []).2.2 = none ∧
    (parse [optOther, optReq] [longTok (str "other") (str "x")]).1 =
      applyDefaults [optOther, optReq]
        (parseLoop [optOther, optReq] [longTok (str "other") (str "x")] none
          [] []).1 :=
  c5_missing_required_deferred.1 [optOther, optReq]
    [longTok (str "other") (str "x")] (str "must") (by decide)

/-! ### C8: type validation -/

lemma intTextOk_iff (v : Str) :
    intTextOk v = true ↔
      ∃ ds : Str, (v = ds ∨ v = '-' :: ds ∨ v = '+' :: ds) ∧ ds ≠ [] ∧
        ∀ c ∈ ds, c.isDigit = true := by
  cases v with
  | nil =>
    constructor
    · intro h; simp [intTextOk] at h
    · rintro ⟨ds, hds, hne, -⟩
      rcases hds with rfl | h | h
      · exact absurd rfl hne
      · simp at h
      · simp at h
  | cons c rest =>
    by_cases hsign : c = '-' ∨ c = '+'
    · have hlhs : intTextOk (c :: rest) =
          (!rest.isEmpty && rest.all Char.isDigit) := by
        simp [intTextOk, hsign]
      rw [hlhs]
      constructor
      · intro h
        simp only [Bool.and_eq_true, Bool.not_eq_true', List.all_eq_true] at h
        refine ⟨rest, ?_, ?_, h.2⟩
        · rcases hsign with rfl | rfl
          · exact Or.inr (Or.inl rfl)
          · exact Or.inr (Or.inr rfl)
        · intro hnil
          rw [hnil] at h
          simp at h
      · rintro ⟨ds, hds, hne, hall⟩
        rcases hds with heq | heq | heq
        · have hc := hall c (heq ▸ List.mem_cons_self c rest)
          rcases hsign with rfl | rfl <;> simp at hc
        · obtain ⟨-, rfl⟩ : c = '-' ∧ rest = ds := by
            constructor <;> injection heq
          simp only [Bool.and_eq_true, Bool.not_eq_true', List.all_eq_true]
          exact ⟨by simpa [List.isEmpty_iff] using hne, hall⟩
        · obtain ⟨-, rfl⟩ : c = '+' ∧ rest = ds := by
            constructor <;> injection heq
          simp only [Bool.and_eq_true, Bool.not_eq_true', List.all_eq_true]
          exact ⟨by simpa [List.isEmpty_iff] using hne, hall⟩
    · have hlhs : intTextOk (c :: rest) =
          (c.isDigit && rest.all Char.isDigit) := by
        simp [intTextOk, hsign]
      push_neg at hsign
      rw [hlhs]
      constructor
      · intro h
        simp only [Bool.and_eq_true, List.all_eq_true] at h
        refine ⟨c :: rest, Or.inl rfl, List.cons_ne_nil c rest, ?_⟩
        intro x hx
        rcases List.mem_cons.mp hx with rfl | hx'
        · exact h.1
        · exact h.2 x hx'
      · rintro ⟨ds, hds, hne, hall⟩
        rcases hds with heq | heq | heq
        · subst heq
          simp only [Bool.and_eq_true, List.all_eq_true]
          exact ⟨hall c (List.mem_cons_self c rest),
            fun x hx => hall x (List.mem_cons_of_mem c hx)⟩
        · exact absurd (by injection heq) hsign.1
        · exact absurd (by injection heq) hsign.2

/-- C8: validation of a consumed argument text holds exactly when — for
`int` — the text is an optional sign followed by at least one base-10
digit, — for `bool` — the text is one of `true`/`false`/`1`/`0`, and —
for `string` — always; a text failing its declared type's check makes
the matcher fail with `TypeMismatch` naming the option and the text. -/
theorem c8_type_validation (opt : OptionSpec) (v : Str) :
    (opt.value_type = .Integer →
      (checkArgument opt v = true ↔
        ∃ ds : Str, (v = ds ∨ v = '-' :: ds ∨ v = '+' :: ds) ∧ ds ≠ [] ∧
          ∀ c ∈ ds, c.isDigit = true)) ∧
    (opt.value_type = .Boolean →
      (checkArgument opt v = true ↔
        (v = str "true" ∨ v = str "false" ∨ v = str "1" ∨ v = str "0"))) ∧
    (opt.value_type = .StringT → checkArgument opt v = true) ∧
    (∀ (table : List OptionSpec) (st : Store) (lo rest : List Str),
      lookupLong table opt.long_name = some opt →
      '=' ∉ opt.long_name →
      (opt.argument_kind = .RequiredArgument ∨
       opt.argument_kind = .OptionalArgument) →
      checkArgument opt v = false →
      parseLoop table (longTok opt.long_name v :: rest) none st lo =
        (st, lo, some (.TypeMismatch opt.long_name v))) := by
  refine ⟨?_, ?_, ?_, ?_⟩
  · intro hvt
    have h : checkArgument opt v = intTextOk v := by simp [checkArgument, hvt]
    rw [h]
    exact intTextOk_iff v
  · intro hvt
    simp [checkArgument, hvt]
    tauto
  · intro hvt
    simp [checkArgument, hvt]
  · intro table st lo rest hlk hmem hk hc
    rw [longTok, parseLoop_long_step table _ (by simp) rest st lo,
      handleLong_inline_bad table st opt.long_name v opt hmem hlk hk hc]

/-- Witness for C8: `xy` fails the `int` check of `--level`, producing a
`TypeMismatch` naming the option and the text. -/
theorem c8_witness :
    parseLoop [optLevel] [longTok optLevel.long_name (str "xy")] none [] [] =
      ([], [], some (.TypeMismatch optLevel.long_name (str "xy"))) :=
  (c8_type_validation optLevel (str "xy")).2.2.2 [optLevel] [] [] []
    (lookupLong_single optLevel) (by decide) (Or.inr rfl) (by decide)

/-! ### C3: the help text -/

lemma parseFlags_mem (s : Str) (c : Char) (h : c ∈ (parseFlags s).2.2) :
    c ∈ s := by
  cases s with
  | nil => simp [parseFlags] at h
  | cons c1 r1 =>
    by_cases h1 : c1 = '!'
    · subst h1
      cases r1 with
      | nil => simp [parseFlags] at h
      | cons c2 r2 =>
        by_cases h2 : c2 = '*'
        · subst h2
          simp only [parseFlags, if_pos rfl] at h
          exact List.mem_cons_of_mem _ (List.mem_cons_of_mem _ h)
        · simp only [parseFlags, if_pos rfl, if_neg h2] at h
          exact List.mem_cons_of_mem _ h
    · by_cases h1' : c1 = '*'
      · subst h1'
        cases r1 with
        | nil => simp [parseFlags, h1] at h
        | cons c2 r2 =>
          by_cases h2 : c2 = '!'
          · subst h2
            simp only [parseFlags, if_neg h1, if_pos rfl] at h
            exact List.mem_cons_of_mem _ (List.mem_cons_of_mem _ h)
          · simp only [parseFlags, if_neg h1, if_pos rfl, if_neg h2] at h
            exact List.mem_cons_of_mem _ h
      · simp only [parseFlags, if_neg h1, if_neg h1'] at h
        exact h

lemma parseFlags_append_colon (s x : Str) :
    parseFlags (s ++ ':' :: x) =
      ((parseFlags s).1, (parseFlags s).2.1, (parseFlags s).2.2 ++ ':' :: x) := by
  have hcb : (':' : Char) ≠ '!' := by decide
  have hcs : (':' : Char) ≠ '*' := by decide
  cases s with
  | nil => simp [parseFlags, hcb, hcs]
  | cons c1 r1 =>
    by_cases h1 : c1 = '!'
    · subst h1
      cases r1 with
      | nil => simp [parseFlags, hcs]
      | cons c2 r2 => by_cases h2 : c2 = '*' <;> simp [parseFlags, h2]
    · by_cases h1' : c1 = '*'
      · subst h1'
        cases r1 with
        | nil => simp [parseFlags, h1, hcb]
        | cons c2 r2 => by_cases h2 : c2 = '!' <;> simp [parseFlags, h1, h2]
      · simp [parseFlags, h1, h1']

/-- C3: the help text is introduced by the `:` following the option
names and argument specification and runs to the end of the string: for
any description `d1 ++ ":" ++ d2` that compiles (its two structural
parts containing no further `:`), appending `":" ++ help` compiles to
the same `OptionSpec` with `help_text` equal to exactly that trailing
text. -/
theorem c3_help_text (d1 d2 help : Str) (spec : OptionSpec)
    (h1 : ':' ∉ d1) (h2 : ':' ∉ d2)
    (hc : compile (d1 ++ ':' :: d2) = .ok spec) :
    compile (d1 ++ ':' :: (d2 ++ ':' :: help)) =
      .ok { spec with help_text := help } := by
  have hpf1 := parseFlags_append_colon d1 d2
  have hpf2 := parseFlags_append_colon d1 (d2 ++ ':' :: help)
  have hr1 : ':' ∉ (parseFlags d1).2.2 := fun hm => h1 (parseFlags_mem d1 ':' hm)
  have hs1 := splitFirst_append ':' (parseFlags d1).2.2 d2 hr1
  have hs2 := splitFirst_append ':' (parseFlags d1).2.2 (d2 ++ ':' :: help) hr1
  have hd2 : splitFirst ':' d2 = none := splitFirst_eq_none ':' d2 h2
  have hd2' : splitFirst ':' (d2 ++ ':' :: help) = some (d2, help) :=
    splitFirst_append ':' d2 help h2
  simp only [compile, hpf1, hs1, hd2] at hc
  simp only [compile, hpf2, hs2, hd2']
  cases hpc : parseCore d2 with
  | error e => rw [hpc] at hc; simp at hc
  | ok t =>
    obtain ⟨ln, sn, ak, vt, hd, dv⟩ := t
    rw [hpc] at hc
    simp only [Except.ok.injEq] at hc
    rw [← hc]

/-- The `OptionSpec` compiled from `key:opt`, used by the C3 witness. -/
def optKeyOpt : OptionSpec :=
  { config_key := str "key", long_name := str "opt", short_name := none
    help_text := [], argument_kind := .NoArgument, value_type := .Untyped
    has_default := false, default_value := [], is_multiple := false
    is_required := false }

/-- Witness for C3: appending `:help me` to `key:opt` sets exactly that
help text. -/
theorem c3_witness :
    compile (str "key" ++ ':' :: (str "opt" ++ ':' :: str "help me")) =
      .ok { optKeyOpt with help_text := str "help me" } :=
  c3_help_text (str "key") (str "opt") (str "help me") optKeyOpt
    (by decide) (by decide) rfl

/-! ### C6: rejected descriptions -/

lemma recognizeType_ok (s : Str) (vt : ValueType)
    (h : recognizeType s = some vt) :
    vt = .Integer ∨ vt = .Boolean ∨ vt = .StringT := by
  simp only [recognizeType] at h
  split at h
  · exact Or.inl (Option.some.inj h).symm
  · split at h
    · exact Or.inr (Or.inl (Option.some.inj h).symm)
    · split at h
      · exact Or.inr (Or.inr (Option.some.inj h).symm)
      · cases h

lemma parseArgspec_ok (sep : Char) (r : Str) (ak : ArgumentKind)
    (vt : ValueType) (hd : Bool) (dv : Str)
    (h : parseArgspec sep r = .ok (ak, vt, hd, dv)) :
    (vt = .Integer ∨ vt = .Boolean ∨ vt = .StringT) ∧
    (ak = .OptionalArgument → hd = true) ∧ ak ≠ .NoArgument := by
  simp only [parseArgspec] at h
  cases hrt : recognizeType (r.takeWhile (· ≠ ',')) with
  | none => rw [hrt] at h; cases h
  | some vt' =>
    rw [hrt] at h
    simp only at h
    split at h
    · simp only [Except.ok.injEq, Prod.mk.injEq] at h
      obtain ⟨hak, hvt, hhd, -⟩ := h
      refine ⟨hvt ▸ recognizeType_ok _ _ hrt, fun _ => hhd.symm, ?_⟩
      rw [← hak]
      split <;> simp
    · split at h
      · cases h
      · simp only [Except.ok.injEq, Prod.mk.injEq] at h
        obtain ⟨hak, hvt, hhd, -⟩ := h
        refine ⟨hvt ▸ recognizeType_ok _ _ hrt, ?_, ?_⟩
        · intro hopt; rw [← hak] at hopt; cases hopt
        · rw [← hak]; simp

lemma parseCore_ok (core ln : Str) (sn : Option Char) (ak : ArgumentKind)
    (vt : ValueType) (hd : Bool) (dv : Str)
    (h : parseCore core = .ok (ln, sn, ak, vt, hd, dv)) :
    ln ≠ [] ∧
    (ak ≠ .NoArgument →
      (vt = .Integer ∨ vt = .Boolean ∨ vt = .StringT)) ∧
    (ak = .OptionalArgument → hd = true) := by
  simp only [parseCore] at h
  split at h
  · cases h
  · rename_i hempty
    have hln_ne : ∀ l : Str,
        core.takeWhile (fun c => c ≠ ',' ∧ c ≠ '=' ∧ c ≠ '?') = l → l ≠ [] := by
      intro l hl hnil
      exact hempty (by rw [hl, hnil]; rfl)
    split at h
    · simp only [Except.ok.injEq, Prod.mk.injEq] at h
      obtain ⟨hln, -, hak, hvt, hhd, -⟩ := h
      refine ⟨hln_ne ln hln, ?_, ?_⟩
      · intro hne; exact absurd hak.symm hne
      · intro hopt; rw [← hak] at hopt; cases hopt
    · split at h
      · split at h
        · simp only [Except.ok.injEq, Prod.mk.injEq] at h
          obtain ⟨hln, -, hak, hvt, hhd, -⟩ := h
          refine ⟨hln_ne ln hln, ?_, ?_⟩
          · intro hne; exact absurd hak.symm hne
          · intro hopt; rw [← hak] at hopt; cases hopt
        · split at h
          · cases h
          · rename_i hpa
            simp only [Except.ok.injEq, Prod.mk.injEq] at h
            obtain ⟨hln, -, hak, hvt, hhd, -⟩ := h
            obtain ⟨hvt', hhd', hak'⟩ :=
              parseArgspec_ok _ _ _ _ _ _ hpa
            exact ⟨hln_ne ln hln, fun _ => hvt ▸ hvt',
              fun hopt => hhd ▸ hhd' (hak ▸ hopt)⟩
      · cases h
    · split at h
      · cases h
      · rename_i hpa
        simp only [Except.ok.injEq, Prod.mk.injEq] at h
        obtain ⟨hln, -, hak, hvt, hhd, -⟩ := h
        obtain ⟨hvt', hhd', hak'⟩ := parseArgspec_ok _ _ _ _ _ _ hpa
        exact ⟨hln_ne ln hln, fun _ => hvt ▸ hvt',
          fun hopt => hhd ▸ hhd' (hak ▸ hopt)⟩

lemma compile_ok_sound (s : Str) (spec : OptionSpec)
    (h : compile s = .ok spec) :
    spec.long_name ≠ [] ∧
    (spec.argument_kind ≠ .NoArgument →
      (spec.value_type = .Integer ∨ spec.value_type = .Boolean ∨
       spec.value_type = .StringT)) ∧
    (spec.argument_kind = .OptionalArgument → spec.has_default = true) := by
  simp only [compile] at h
  split at h
  · cases h
  · split at h
    · cases h
    · rename_i ln sn ak vt hd dv hpc
      simp only [Except.ok.injEq] at h
      rw [← h]
      simpa using parseCore_ok _ _ _ _ _ _ _ hpc

/-- C6: the description compiler rejects — with a `MalformedDescription`
rather than an `OptionSpec` — every description whose long name is
empty, whose declared value type is unrecognized, or that uses the `?`
optional-argument form without a default: no compiled `OptionSpec` ever
exhibits those shapes, and the three concrete malformed descriptions
fail. -/
theorem c6_malformed_descriptions :
    (∀ (s : Str) (spec : OptionSpec), compile s = .ok spec →
      spec.long_name ≠ [] ∧
      (spec.argument_kind ≠ .NoArgument →
        (spec.value_type = .Integer ∨ spec.value_type = .Boolean ∨
         spec.value_type = .StringT)) ∧
      (spec.argument_kind = .OptionalArgument → spec.has_default = true)) ∧
    (∃ e, compile (str ":") = .error e) ∧
    (∃ e, compile (str ":opt=float") = .error e) ∧
    (∃ e, compile (str ":opt?int") = .error e) :=
  ⟨compile_ok_sound, ⟨_, rfl⟩, ⟨_, rfl⟩, ⟨_, rfl⟩⟩

/-- The `OptionSpec` compiled from `:opt`, used by the C6 witness. -/
def optOpt : OptionSpec :=
  { config_key := str "opt", long_name := str "opt", short_name := none
    help_text := [], argument_kind := .NoArgument, value_type := .Untyped
    has_default := false, default_value := [], is_multiple := false
    is_required := false }

/-- Witness for C6 at the concrete accepted description `:opt`. -/
theorem c6_witness :
    optOpt.long_name ≠ [] ∧
    (optOpt.argument_kind ≠ .NoArgument →
      (optOpt.value_type = .Integer ∨ optOpt.value_type = .Boolean ∨
       optOpt.value_type = .StringT)) ∧
    (optOpt.argument_kind = .OptionalArgument → optOpt.has_default = true) :=
  c6_malformed_descriptions.1 (str ":opt") optOpt rfl

end Utilmm
